import Mathlib

/-!
Verification of the localtime bridge crate (`src/lib.rs`).

The development shallowly embeds:
* the C-compatible optional byte-string carrier `COsString` together with its
  constructors (`COsString.null`, `COsString.empty`, the conversions from an
  owned OS string and from an optional OS string) and its release operation;
* the environment accessor `rust_getenv` and the deallocation endpoint
  `rust_os_string_dealloc` exposed to the native engine;
* the conversion facade `localtime`, `timegm` and `mktime`, parameterised by
  the native engine entry points `rl_localtime_r`, `rl_timegm`, `rl_mktime`;
* a model of the native engine's UTC behaviour (the engine's own source,
  `c_lib/localtime.c`, is external to the Rust crate's `src/` tree).

Raw pointers are embedded as an inductive `CPtr` that distinguishes the null
pointer, pointers into process-static storage, and heap allocations, each
non-null case carrying the bytes it points at.  Byte buffers are `List Nat`.
A `Vec` allocation's capacity is chosen by the allocator; it is embedded as an
explicit `cap` argument, constrained at use sites by the `Vec` guarantee that
the capacity is at least the length.
-/

/-- A C pointer as seen at the boundary: null, a pointer into process-static
storage, or a pointer to a heap allocation.  The non-null cases carry the
pointed-at bytes. -/
inductive CPtr where
  | null : CPtr
  | static (bytes : List Nat) : CPtr
  | heap (bytes : List Nat) : CPtr
deriving DecidableEq

/-- The bytes behind a pointer (none for the null pointer). -/
def CPtr.bytes : CPtr → List Nat
  | CPtr.null => []
  | CPtr.static bs => bs
  | CPtr.heap bs => bs

/-- Whether the pointer points into a heap allocation. -/
def CPtr.isHeap : CPtr → Bool
  | CPtr.heap _ => true
  | _ => false

/-- Embedding of `struct COsString { ptr, len, capacity }` from `src/lib.rs`:
the C-compatible `Option<Cow<OsStr>>` carrier with fields in the fixed order
pointer, length, capacity. -/
structure COsString where
  ptr : CPtr
  len : Nat
  capacity : Nat
deriving DecidableEq

/-- `COsString::null`: null pointer, length 0, capacity 0 (`None` semantics). -/
def COsString.null : COsString :=
  { ptr := CPtr.null, len := 0, capacity := 0 }

/-- `COsString::empty`: pointer to the process-static byte `EMPTY : c_char = 0`,
length 1, capacity 0 (empty-string semantics, no allocation). -/
def COsString.empty : COsString :=
  { ptr := CPtr.static [0], len := 1, capacity := 0 }

/-- The observable effect of a release call on the allocator. -/
inductive DeallocAction where
  | noop : DeallocAction
  | free (ptr : CPtr) (len : Nat) (capacity : Nat) : DeallocAction
deriving DecidableEq

/-- `COsString::dealloc`: if `capacity > 0`, rebuild the `Vec` from the raw
parts stored in the carrier (releasing the allocation with exactly the stored
pointer, length and capacity); otherwise do nothing. -/
def COsString.dealloc (s : COsString) : DeallocAction :=
  if 0 < s.capacity then DeallocAction.free s.ptr s.len s.capacity
  else DeallocAction.noop

/-- `rust_os_string_dealloc`: the deallocation endpoint exposed to C; it just
consumes the carrier and calls `COsString::dealloc` on it. -/
def rust_os_string_dealloc (s : COsString) : DeallocAction :=
  s.dealloc

/-- `impl From<std::ffi::OsString> for COsString`: if the byte vector is
non-empty, push a terminating zero byte, then record the vector's pointer,
length and capacity and forget it; otherwise return `COsString::empty`.
`cap` is the capacity of the vector after the push, chosen by the allocator. -/
def COsString.fromOsString (value : List Nat) (cap : Nat) : COsString :=
  if value ≠ [] then
    { ptr := CPtr.heap (value ++ [0]), len := value.length + 1, capacity := cap }
  else
    COsString.empty

/-- `impl From<Option<std::ffi::OsString>> for COsString`: map the present
case through the `OsString` conversion, `None` to `COsString::null`. -/
def COsString.fromOption (value : Option (List Nat)) (cap : Nat) : COsString :=
  match value with
  | some v => COsString.fromOsString v cap
  | none => COsString.null

/-- Reading a carrier back: the string consists of the first `len - 1`
pointed-at bytes (the last byte is the zero terminator). -/
def COsString.readBack (s : COsString) : List Nat :=
  s.ptr.bytes.take (s.len - 1)

/-- An environment state: a map from variable names (byte sequences) to
optional values (byte sequences). -/
def Env : Type := List Nat → Option (List Nat)

/-- `std::env::var_os`: look the name up in the current environment state
(under the standard library's environment lock). -/
def var_os (env : Env) (name : List Nat) : Option (List Nat) :=
  env name

/-- `rust_getenv`: the environment accessor exposed to C.  The name arrives as
a byte sequence with explicit length (already embedded here as the byte list);
the result is `std::env::var_os(name).into()`.  `cap` is the allocator-chosen
capacity of the copied value's buffer. -/
def rust_getenv (env : Env) (name : List Nat) (cap : Nat) : COsString :=
  COsString.fromOption (var_os env name) cap

/-- The structural carrier invariant: a null pointer comes with length 0 and
capacity 0; a non-null pointer comes with length at least 1 and a zero byte at
index `len - 1`; a positive capacity comes with a non-null (heap) pointer, a
capacity at least the length, and a length at least 2. -/
def carrierInv (s : COsString) : Prop :=
  (s.ptr = CPtr.null → s.len = 0 ∧ s.capacity = 0) ∧
  (s.ptr ≠ CPtr.null → 1 ≤ s.len ∧ s.ptr.bytes[s.len - 1]? = some 0) ∧
  (0 < s.capacity → s.ptr ≠ CPtr.null ∧ s.len ≤ s.capacity ∧ 2 ≤ s.len)

theorem carrierInv_null : carrierInv COsString.null := by
  refine ⟨fun _ => ⟨rfl, rfl⟩, fun h => absurd rfl h, fun h => absurd h (by decide)⟩

theorem carrierInv_empty : carrierInv COsString.empty := by
  refine ⟨fun h => absurd h (by decide), fun _ => ⟨le_refl 1, rfl⟩,
    fun h => absurd h (by decide)⟩

theorem carrierInv_fromOsString (v : List Nat) (cap : Nat)
    (hcap : 0 < cap → v.length + 1 ≤ cap) :
    carrierInv (COsString.fromOsString v cap) := by
  by_cases hv : v = []
  · subst hv
    simpa [COsString.fromOsString] using carrierInv_empty
  · have hlen : 1 ≤ v.length := List.length_pos.mpr hv
    have hrw : COsString.fromOsString v cap =
        { ptr := CPtr.heap (v ++ [0]), len := v.length + 1, capacity := cap } := by
      simp [COsString.fromOsString, hv]
    rw [hrw]
    unfold carrierInv
    dsimp only
    refine ⟨fun h => CPtr.noConfusion h, fun _ => ⟨by omega, ?_⟩,
      fun h => ⟨by simp, hcap h, by omega⟩⟩
    show (CPtr.heap (v ++ [0])).bytes[v.length + 1 - 1]? = some 0
    have : v.length + 1 - 1 = v.length := by omega
    rw [this]
    simp [CPtr.bytes]

theorem carrierInv_fromOption (ov : Option (List Nat)) (cap : Nat)
    (hcap : ∀ w, ov = some w → 0 < cap → w.length + 1 ≤ cap) :
    carrierInv (COsString.fromOption ov cap) := by
  cases ov with
  | none => exact carrierInv_null
  | some v => exact carrierInv_fromOsString v cap (hcap v rfl)

/-- C1: for every environment state, `rust_getenv` maps an unset variable to
the Absent carrier (null pointer, length 0, capacity 0) and a variable set to
the empty string to the Static-Empty carrier (non-null pointer to a single
zero byte, length 1, capacity 0); the two carriers are distinct values. -/
theorem c1_absent_vs_empty (env : Env) (name : List Nat) (cap : Nat) :
    (var_os env name = none → rust_getenv env name cap = COsString.null) ∧
    (var_os env name = some [] → rust_getenv env name cap = COsString.empty) ∧
    (COsString.null.ptr = CPtr.null ∧ COsString.null.len = 0 ∧
      COsString.null.capacity = 0) ∧
    (COsString.empty.ptr ≠ CPtr.null ∧ COsString.empty.ptr.bytes = [0] ∧
      COsString.empty.len = 1 ∧ COsString.empty.capacity = 0) ∧
    COsString.null ≠ COsString.empty := by
  refine ⟨fun h => ?_, fun h => ?_, ⟨rfl, rfl, rfl⟩, ⟨by decide, rfl, rfl, rfl⟩,
    by decide⟩
  · simp [rust_getenv, COsString.fromOption, h]
  · simp [rust_getenv, COsString.fromOption, h, COsString.fromOsString]

theorem c1_witness :
    rust_getenv (fun _ => none) [84, 90] 0 = COsString.null ∧
    rust_getenv (fun _ => some []) [84, 90] 0 = COsString.empty :=
  ⟨(c1_absent_vs_empty (fun _ => none) [84, 90] 0).1 rfl,
   (c1_absent_vs_empty (fun _ => some []) [84, 90] 0).2.1 rfl⟩

/-- C2: constructing a carrier from a present non-empty value copies the
value's bytes followed by one terminating zero byte, records length equal to
the byte count plus one and the allocation's capacity; an empty value skips
heap allocation and yields the Static-Empty carrier; reading the constructed
carrier back reproduces the value's exact bytes. -/
theorem c2_construction (v : List Nat) (cap : Nat) :
    (v ≠ [] →
      COsString.fromOsString v cap =
        { ptr := CPtr.heap (v ++ [0]), len := v.length + 1, capacity := cap }) ∧
    (v = [] →
      COsString.fromOsString v cap = COsString.empty ∧
      (COsString.fromOsString v cap).ptr.isHeap = false ∧
      (COsString.fromOsString v cap).capacity = 0) ∧
    (COsString.fromOsString v cap).readBack = v := by
  refine ⟨fun hv => by simp [COsString.fromOsString, hv], fun hv => ?_, ?_⟩
  · subst hv
    exact ⟨rfl, rfl, rfl⟩
  · by_cases hv : v = []
    · subst hv
      simp [COsString.fromOsString, COsString.readBack, COsString.empty, CPtr.bytes]
    · simp [COsString.fromOsString, hv, COsString.readBack, CPtr.bytes]

theorem c2_witness :
    (COsString.fromOsString [85, 84, 67] 4 =
      { ptr := CPtr.heap [85, 84, 67, 0], len := 4, capacity := 4 }) ∧
    (COsString.fromOsString [] 0 = COsString.empty) ∧
    (COsString.fromOsString [85, 84, 67] 4).readBack = [85, 84, 67] :=
  ⟨(c2_construction [85, 84, 67] 4).1 (by decide),
   ((c2_construction [] 0).2.1 rfl).1,
   (c2_construction [85, 84, 67] 4).2.2⟩

/-- C3: the release operation does nothing when the stored capacity is 0 and
otherwise frees using exactly the pointer, length and capacity stored together
in the carrier; it can take no other length/capacity pair. -/
theorem c3_dealloc (s : COsString) :
    (s.capacity = 0 → rust_os_string_dealloc s = DeallocAction.noop) ∧
    (0 < s.capacity →
      rust_os_string_dealloc s = DeallocAction.free s.ptr s.len s.capacity) ∧
    (rust_os_string_dealloc s = DeallocAction.noop ∨
      rust_os_string_dealloc s = DeallocAction.free s.ptr s.len s.capacity) := by
  unfold rust_os_string_dealloc COsString.dealloc
  by_cases h : 0 < s.capacity
  · exact ⟨fun h0 => absurd h0 (by omega), fun _ => by simp [h], Or.inr (by simp [h])⟩
  · exact ⟨fun _ => by simp [h], fun h1 => absurd h1 h, Or.inl (by simp [h])⟩

theorem c3_witness :
    rust_os_string_dealloc COsString.empty = DeallocAction.noop ∧
    rust_os_string_dealloc { ptr := CPtr.heap [65, 0], len := 2, capacity := 2 } =
      DeallocAction.free (CPtr.heap [65, 0]) 2 2 :=
  ⟨(c3_dealloc COsString.empty).1 rfl,
   (c3_dealloc { ptr := CPtr.heap [65, 0], len := 2, capacity := 2 }).2.1
     (by decide)⟩

/-- C4: the environment accessor never fails: for every environment state,
name byte sequence and allocator-chosen capacity (meeting the allocator
guarantee), the result is a structurally valid carrier, and an absent variable
yields the Absent carrier as a normal outcome. -/
theorem c4_getenv_total (env : Env) (name : List Nat) (cap : Nat)
    (hcap : ∀ w, var_os env name = some w → 0 < cap → w.length + 1 ≤ cap) :
    carrierInv (rust_getenv env name cap) ∧
    (var_os env name = none → rust_getenv env name cap = COsString.null) := by
  refine ⟨carrierInv_fromOption (var_os env name) cap hcap, fun h => ?_⟩
  simp [rust_getenv, COsString.fromOption, h]

theorem c4_witness :
    carrierInv (rust_getenv (fun _ => some [85, 84, 67]) [84, 90] 4) ∧
    rust_getenv (fun _ => none) [84, 90] 0 = COsString.null :=
  ⟨(c4_getenv_total (fun _ => some [85, 84, 67]) [84, 90] 4
      (fun w hw => by injection hw with h; subst h; intro _; decide)).1,
   (c4_getenv_total (fun _ => none) [84, 90] 0 (fun w hw => by cases hw)).2 rfl⟩

/-- C10: every carrier produced by the four constructors (`null`, `empty`,
the `OsString` conversion, the `Option<OsString>` conversion) satisfies the
structural invariant `carrierInv`. -/
theorem c10_constructor_invariant (v : List Nat) (ov : Option (List Nat))
    (cap cap2 : Nat) (hcap : 0 < cap → v.length + 1 ≤ cap)
    (hcap2 : ∀ w, ov = some w → 0 < cap2 → w.length + 1 ≤ cap2) :
    carrierInv COsString.null ∧ carrierInv COsString.empty ∧
    carrierInv (COsString.fromOsString v cap) ∧
    carrierInv (COsString.fromOption ov cap2) :=
  ⟨carrierInv_null, carrierInv_empty, carrierInv_fromOsString v cap hcap,
   carrierInv_fromOption ov cap2 hcap2⟩

theorem c10_witness :
    carrierInv COsString.null ∧ carrierInv COsString.empty ∧
    carrierInv (COsString.fromOsString [84] 2) ∧
    carrierInv (COsString.fromOption (some [84, 90]) 3) :=
  c10_constructor_invariant [84] (some [84, 90]) 2 3 (fun _ => by decide)
    (fun w hw => by injection hw with h; subst h; intro _; decide)

/-- Embedding of `libc::tm` with the fields the crate uses (the symbolic zone
name field is disabled in the build and therefore absent). -/
structure Tm where
  tm_sec : Int
  tm_min : Int
  tm_hour : Int
  tm_mday : Int
  tm_mon : Int
  tm_year : Int
  tm_wday : Int
  tm_yday : Int
  tm_isdst : Int
  tm_gmtoff : Int
deriving DecidableEq

/-- An I/O error value carrying the platform's last-error code, as produced by
`std::io::Error::last_os_error()`. -/
structure IoError where
  code : Int
deriving DecidableEq

/-- `localtime`: zero the output structure, call `rl_localtime_r`; if the
engine returns the null sentinel, return the error built from the platform's
last OS error, otherwise return the calendar time the engine wrote.  The
engine entry point is a parameter (`none` embeds the null sentinel return,
`some out` embeds a non-null return with `out` written to the output);
`lastOsError` is the platform's last-error code at the failure point. -/
def localtime (engine : Int → Option Tm) (lastOsError : Int) (sec : Int) :
    Except IoError Tm :=
  match engine sec with
  | none => Except.error { code := lastOsError }
  | some out => Except.ok out

/-- `timegm`: `pub fn timegm(mut tm: libc::tm) -> time_t` takes its argument
by value, so `rl_timegm` rewrites a private copy in place; only the returned
epoch integer leaves the function.  The engine entry point returns both the
epoch result and the rewritten structure; the rewritten structure is dropped. -/
def timegm (engine : Tm → Int × Tm) (tm : Tm) : Int :=
  (engine tm).1

/-- `mktime`: same by-value copy semantics as `timegm`, with the
local-timezone engine entry point `rl_mktime`. -/
def mktime (engine : Tm → Int × Tm) (tm : Tm) : Int :=
  (engine tm).1

/-- The observable outcome of a facade call for its caller: the returned
epoch integer together with the calendar value the caller still holds after
the call (the argument is passed by value, so the caller keeps the original). -/
structure CallOutcome where
  ret : Int
  callerTm : Tm
deriving DecidableEq

/-- A `timegm` call as the caller observes it: the by-value argument leaves
the caller's own calendar value untouched. -/
def timegmCall (engine : Tm → Int × Tm) (caller : Tm) : CallOutcome :=
  { ret := timegm engine caller, callerTm := caller }

/-- A `mktime` call as the caller observes it. -/
def mktimeCall (engine : Tm → Int × Tm) (caller : Tm) : CallOutcome :=
  { ret := mktime engine caller, callerTm := caller }

/-- C5: `localtime` returns an error exactly when the engine returns the null
sentinel, and that error carries the platform's last-error code; on a non-null
return it returns `ok` with the calendar time the engine wrote. -/
theorem c5_localtime_error_iff (engine : Int → Option Tm) (err sec : Int) :
    (localtime engine err sec = Except.error { code := err } ↔
      engine sec = none) ∧
    (∀ out, engine sec = some out →
      localtime engine err sec = Except.ok out) := by
  constructor
  · constructor
    · intro h
      cases hmatch : engine sec with
      | none => rfl
      | some out => rw [localtime, hmatch] at h; cases h
    · intro h
      rw [localtime, h]
  · intro out h
    rw [localtime, h]

/-- The calendar time for epoch 0 under UTC, used as a concrete sample value. -/
def tmEpoch : Tm where
  tm_sec := 0
  tm_min := 0
  tm_hour := 0
  tm_mday := 1
  tm_mon := 0
  tm_year := 70
  tm_wday := 4
  tm_yday := 0
  tm_isdst := 0
  tm_gmtoff := 0

theorem c5_witness :
    (localtime (fun _ => none) 22 0 = Except.error { code := 22 }) ∧
    (localtime (fun _ => some tmEpoch) 22 0 = Except.ok tmEpoch) :=
  ⟨(c5_localtime_error_iff (fun _ => none) 22 0).1.mpr rfl,
   (c5_localtime_error_iff (fun _ => some tmEpoch) 22 0).2 tmEpoch rfl⟩

/-- C6: `timegm` and `mktime` always return an epoch integer (no error path),
and because the calendar argument is passed by value, the engine's in-place
rewrite of its copy is invisible to the caller: the caller's value after the
call is the original, and the rewritten component of the engine result never
influences the returned epoch. -/
theorem c6_epoch_total_and_frame (engG engL : Tm → Int × Tm) (tm : Tm) :
    timegm engG tm = (engG tm).1 ∧ mktime engL tm = (engL tm).1 ∧
    (timegmCall engG tm).callerTm = tm ∧ (mktimeCall engL tm).callerTm = tm ∧
    (∀ other : Tm → Int × Tm,
      (other tm).1 = (engG tm).1 → timegm other tm = timegm engG tm) ∧
    (∀ other : Tm → Int × Tm,
      (other tm).1 = (engL tm).1 → mktime other tm = mktime engL tm) := by
  exact ⟨rfl, rfl, rfl, rfl, fun other h => h, fun other h => h⟩

theorem c6_witness :
    timegm (fun t => (0, t)) tmEpoch = ((fun t => ((0 : Int), t)) tmEpoch).1 ∧
    (timegmCall (fun t => (0, t)) tmEpoch).callerTm = tmEpoch ∧
    timegm (fun _ => (0, tmEpoch)) tmEpoch = timegm (fun t => (0, t)) tmEpoch :=
  ⟨(c6_epoch_total_and_frame (fun t => ((0 : Int), t)) (fun t => ((0 : Int), t))
      tmEpoch).1,
   (c6_epoch_total_and_frame (fun t => ((0 : Int), t)) (fun t => ((0 : Int), t))
      tmEpoch).2.2.1,
   (c6_epoch_total_and_frame (fun t => ((0 : Int), t)) (fun t => ((0 : Int), t))
      tmEpoch).2.2.2.2.1 (fun _ => ((0 : Int), tmEpoch)) rfl⟩

/-!
The native engine.  The engine's own source (`c_lib/localtime.c`) is not part
of the crate's `src/` tree, so its three entry points are modelled from the
spec: to-calendar decomposes an epoch second count deterministically under the
current timezone value (UTC when the timezone variable is the empty string),
and calendar-to-epoch-UTC inverts that decomposition with standard calendar
normalization (out-of-range fields roll over).  The model uses the proleptic
Gregorian civil calendar over day counts since 1970-01-01.
-/

/-- Modelled from the spec (native engine calendar arithmetic, absent from
`src/`): day-of-era of the first day of March-based year `yoe` of a 400-year
Gregorian era, for `yoe < 400`. -/
def doeOfYoe (yoe : Nat) : Nat :=
  365 * yoe + yoe / 4 - yoe / 100

/-- Modelled from the spec (native engine calendar arithmetic, absent from
`src/`): day-of-year of the first day of March-based month `mp` (0 = March). -/
def doyOfMp (mp : Nat) : Nat :=
  (153 * mp + 2) / 5

/-- Modelled from the spec (native engine calendar arithmetic, absent from
`src/`): auxiliary count used to extract the year-of-era from a day-of-era. -/
def gOf (doe : Nat) : Nat :=
  doe - doe / 1460 + doe / 36524 - doe / 146096

/-- Modelled from the spec (native engine calendar arithmetic, absent from
`src/`): year-of-era containing day-of-era `doe`. -/
def yoeOfDoe (doe : Nat) : Nat :=
  gOf doe / 365

/-- Modelled from the spec (native engine calendar arithmetic, absent from
`src/`): March-based month containing day-of-year `doy`. -/
def mpOfDoy (doy : Nat) : Nat :=
  (5 * doy + 2) / 153

/-- Modelled from the spec (native engine calendar arithmetic, absent from
`src/`): split a day-of-era (`doe < 146097`) into year-of-era, March-based
month, and day-of-month. -/
def civilCore (doe : Nat) : Nat × Nat × Nat :=
  let yoe := yoeOfDoe doe
  let doy := doe - doeOfYoe yoe
  let mp := mpOfDoy doy
  (yoe, mp, doy - doyOfMp mp + 1)

/-- Day-of-era one past the last day of March-based year `y` of an era
(year 399 of an era ends the 146097-day era). -/
def endOfYoe (y : Nat) : Nat :=
  if y = 399 then 146097 else doeOfYoe (y + 1)

/-- Calendar month (1 = January) of March-based month `mp` (0 = March). -/
def monthOfMp (mp : Nat) : Int :=
  if mp < 10 then (mp : Int) + 3 else (mp : Int) - 9

/-- Civil year of year-of-era `yoe` in era `era`, given the calendar month
(January and February belong to the following civil year). -/
def yearOfEra (era : Int) (yoe : Nat) (m : Int) : Int :=
  (yoe : Int) + era * 400 + (if m ≤ 2 then 1 else 0)

/-- Modelled from the spec (native engine calendar arithmetic, absent from
`src/`): civil date (year, month 1-12, day 1-31) of the day `z` days after
1970-01-01. -/
def civilFromDays (z : Int) : Int × Int × Int :=
  let era := (z + 719468) / 146097
  let c := civilCore ((z + 719468) % 146097).toNat
  (yearOfEra era c.1 (monthOfMp c.2.1), monthOfMp c.2.1, (c.2.2 : Int))

/-- Modelled from the spec (native engine calendar arithmetic, absent from
`src/`): day count since 1970-01-01 of the civil date `(y, m, d)`, with
standard calendar normalization: an out-of-range month rolls into adjacent
years and an out-of-range day-of-month rolls into adjacent months. -/
def daysFromCivil (y m d : Int) : Int :=
  let m0 := ((m - 1) % 12).toNat
  let ydash := y + (m - 1) / 12 - (if m0 < 2 then 1 else 0)
  ydash / 400 * 146097 + (doeOfYoe (ydash % 400).toNat : Int) +
    (doyOfMp ((m0 + 10) % 12) : Int) + d - 1 - 719468

/-- Modelled from the spec (native engine to-calendar, absent from `src/`):
the calendar time of epoch second `t` under UTC, every field populated
deterministically (UTC offset 0, no daylight saving). -/
def toCalendarUTC (t : Int) : Tm where
  tm_sec := ((t % 86400).toNat % 60 : Nat)
  tm_min := ((t % 86400).toNat / 60 % 60 : Nat)
  tm_hour := ((t % 86400).toNat / 3600 : Nat)
  tm_mday := (civilFromDays (t / 86400)).2.2
  tm_mon := (civilFromDays (t / 86400)).2.1 - 1
  tm_year := (civilFromDays (t / 86400)).1 - 1900
  tm_wday := (t / 86400 + 4) % 7
  tm_yday := t / 86400 - daysFromCivil (civilFromDays (t / 86400)).1 1 1
  tm_isdst := 0
  tm_gmtoff := 0

/-- Modelled from the spec (native engine calendar-to-epoch-UTC, absent from
`src/`): the epoch second of a calendar time interpreted in UTC, always
defined, with standard normalization of out-of-range fields. -/
def timegmUTC (tm : Tm) : Int :=
  86400 * daysFromCivil (tm.tm_year + 1900) (tm.tm_mon + 1) tm.tm_mday +
    3600 * tm.tm_hour + 60 * tm.tm_min + tm.tm_sec

/-- The name bytes of the timezone environment variable `TZ`. -/
def tzName : List Nat := [84, 90]

/-- Modelled from the spec (native engine entry point `rl_localtime_r`,
absent from `src/`): the engine reads the timezone variable through the
environment accessor; a timezone variable set to the empty string selects
UTC.  Behaviour under other timezone values is the engine's own timezone-rule
logic, out of the spec's scope, and is kept abstract as `other`. -/
def rl_localtime_r (other : Int → Option Tm) (tz : Option (List Nat))
    (sec : Int) : Option Tm :=
  if tz = some [] then some (toCalendarUTC sec) else other sec

/-- Modelled from the spec (native engine entry point `rl_timegm`, absent
from `src/`): returns the epoch second of the calendar argument interpreted
in UTC and rewrites the passed structure to its normalized form in place. -/
def rl_timegm (tm : Tm) : Int × Tm :=
  (timegmUTC tm, toCalendarUTC (timegmUTC tm))

theorem gOf_le_succ (n : Nat) : gOf n ≤ gOf (n + 1) := by
  have h4 : (36524 : Nat) ∣ 146096 := ⟨4, by norm_num⟩
  unfold gOf
  rw [Nat.succ_div n 1460, Nat.succ_div n 36524, Nat.succ_div n 146096]
  split_ifs with h1 h2 h3 h3 h2 h3 h3
  all_goals try exact absurd (h4.trans h3) h2
  all_goals clear h4
  all_goals try clear h1
  all_goals try clear h2
  all_goals try clear h3
  all_goals omega

theorem gOf_mono : Monotone gOf :=
  monotone_nat_of_le_succ gOf_le_succ

/-- The 400 per-year facts of one Gregorian era: the auxiliary count `gOf`
stays within year `y`'s band `[365 y, 365 y + 364]` on year `y`'s days, each
year spans at most 366 days, and each year is nonempty. -/
theorem yearCheck : ∀ y, y < 400 →
    365 * y ≤ gOf (doeOfYoe y) ∧ gOf (endOfYoe y - 1) ≤ 365 * y + 364 ∧
      endOfYoe y ≤ doeOfYoe y + 366 ∧ doeOfYoe y < endOfYoe y := by decide!

/-- The 366 per-day facts of one March-based year: the extracted month is in
range and starts no later than the given day-of-year. -/
theorem monthCheck : ∀ doy, doy < 366 →
    mpOfDoy doy < 12 ∧ doyOfMp (mpOfDoy doy) ≤ doy := by decide!

/-- Every day-of-era lies in the day range of exactly one year-of-era; this
produces the containing year. -/
theorem yoe_interval (doe : Nat) :
    doe < 146097 → ∃ ys, ys < 400 ∧ doeOfYoe ys ≤ doe ∧ doe < endOfYoe ys := by
  induction doe with
  | zero => exact fun _ => ⟨0, by decide, by decide, by decide⟩
  | succ doe ih =>
    intro h
    obtain ⟨ys, hy, h1, h2⟩ := ih (by omega)
    by_cases hlt : doe + 1 < endOfYoe ys
    · exact ⟨ys, hy, by omega, hlt⟩
    · have heq : doe + 1 = endOfYoe ys := by omega
      have h399 : ys ≠ 399 := by
        intro hq
        subst hq
        simp [endOfYoe] at heq
        omega
      have hnext : endOfYoe ys = doeOfYoe (ys + 1) := by
        simp [endOfYoe, h399]
      obtain ⟨hb1, hb2, hb3, hb4⟩ := yearCheck (ys + 1) (by omega)
      exact ⟨ys + 1, by omega, by omega, by omega⟩

/-- Splitting a day-of-era with `civilCore` is correct: the pieces recombine
to the original day, the year-of-era is below 400, the March-based month is
below 12, and the day-of-month is at least 1. -/
theorem civilCore_spec (doe : Nat) (h : doe < 146097) :
    doeOfYoe (civilCore doe).1 + doyOfMp (civilCore doe).2.1 +
        (civilCore doe).2.2 - 1 = doe ∧
      doeOfYoe (civilCore doe).1 ≤ doe ∧
      (civilCore doe).1 < 400 ∧ (civilCore doe).2.1 < 12 ∧
      1 ≤ (civilCore doe).2.2 := by
  obtain ⟨ys, hy400, hstart, hend⟩ := yoe_interval doe h
  obtain ⟨hb1, hb2, hb3, hb4⟩ := yearCheck ys hy400
  have hmono1 : gOf (doeOfYoe ys) ≤ gOf doe := gOf_mono hstart
  have hmono2 : gOf doe ≤ gOf (endOfYoe ys - 1) := gOf_mono (by omega)
  have hyoe : yoeOfDoe doe = ys := by
    unfold yoeOfDoe
    omega
  have hdoy : doe - doeOfYoe ys < 366 := by omega
  obtain ⟨hm1, hm2⟩ := monthCheck (doe - doeOfYoe ys) hdoy
  have hcc : civilCore doe =
      (ys, mpOfDoy (doe - doeOfYoe ys),
        doe - doeOfYoe ys - doyOfMp (mpOfDoy (doe - doeOfYoe ys)) + 1) := by
    simp only [civilCore]
    rw [hyoe]
  rw [hcc]
  dsimp only
  refine ⟨?_, ?_, hy400, hm1, ?_⟩ <;> omega

/-- Unfolding equation for `daysFromCivil`. -/
theorem daysFromCivil_eq (y m d : Int) :
    daysFromCivil y m d =
      (y + (m - 1) / 12 -
          (if ((m - 1) % 12).toNat < 2 then 1 else 0)) / 400 * 146097 +
        (doeOfYoe ((y + (m - 1) / 12 -
          (if ((m - 1) % 12).toNat < 2 then 1 else 0)) % 400).toNat : Int) +
        (doyOfMp ((((m - 1) % 12).toNat + 10) % 12) : Int) + d - 1 - 719468 :=
  rfl

/-- `daysFromCivil` evaluated on an in-range split date recombines the era,
year-of-era, March-based month and day linearly. -/
theorem daysFromCivil_core (era : Int) (yoe mp dN : Nat) (hyoe : yoe < 400)
    (hmp : mp < 12) :
    daysFromCivil (yearOfEra era yoe (monthOfMp mp)) (monthOfMp mp) (dN : Int) =
      era * 146097 + (doeOfYoe yoe : Int) + (doyOfMp mp : Int) +
        (dN : Int) - 1 - 719468 := by
  by_cases hmp10 : mp < 10
  · have hmdef : monthOfMp mp = (mp : Int) + 3 := by
      unfold monthOfMp
      rw [if_pos hmp10]
    rw [daysFromCivil_eq, hmdef]
    have e1 : ((mp : Int) + 3 - 1) / 12 = 0 := by omega
    have e2 : (((mp : Int) + 3 - 1) % 12).toNat = mp + 2 := by omega
    rw [e1, e2, if_neg (by omega : ¬ (mp + 2 < 2))]
    have e4 : (mp + 2 + 10) % 12 = mp := by omega
    rw [e4]
    have hyeq : yearOfEra era yoe ((mp : Int) + 3) + 0 - 0 =
        (yoe : Int) + era * 400 := by
      unfold yearOfEra
      rw [if_neg (by omega : ¬ ((mp : Int) + 3 ≤ 2))]
      ring
    rw [hyeq]
    have e5 : ((yoe : Int) + era * 400) / 400 = era := by omega
    have e6 : (((yoe : Int) + era * 400) % 400).toNat = yoe := by omega
    rw [e5, e6]
  · have hmdef : monthOfMp mp = (mp : Int) - 9 := by
      unfold monthOfMp
      rw [if_neg hmp10]
    rw [daysFromCivil_eq, hmdef]
    have e1 : ((mp : Int) - 9 - 1) / 12 = 0 := by omega
    have e2 : (((mp : Int) - 9 - 1) % 12).toNat = mp - 10 := by omega
    rw [e1, e2, if_pos (by omega : mp - 10 < 2)]
    have e4 : (mp - 10 + 10) % 12 = mp := by omega
    rw [e4]
    have hyeq : yearOfEra era yoe ((mp : Int) - 9) + 0 - 1 =
        (yoe : Int) + era * 400 := by
      unfold yearOfEra
      rw [if_pos (by omega : (mp : Int) - 9 ≤ 2)]
      ring
    rw [hyeq]
    have e5 : ((yoe : Int) + era * 400) / 400 = era := by omega
    have e6 : (((yoe : Int) + era * 400) % 400).toNat = yoe := by omega
    rw [e5, e6]

/-- The civil date split of a day count inverts back to the day count. -/
theorem daysFromCivil_civilFromDays (z : Int) :
    daysFromCivil (civilFromDays z).1 (civilFromDays z).2.1
      (civilFromDays z).2.2 = z := by
  have hge : 0 ≤ (z + 719468) % 146097 := Int.emod_nonneg _ (by norm_num)
  have hlt : (z + 719468) % 146097 < 146097 :=
    Int.emod_lt_of_pos _ (by norm_num)
  have hdoeN : ((z + 719468) % 146097).toNat < 146097 := by omega
  obtain ⟨hsum, hstart, hyoe400, hmp12, hd1⟩ := civilCore_spec _ hdoeN
  have hproj : civilFromDays z =
      (yearOfEra ((z + 719468) / 146097)
         (civilCore ((z + 719468) % 146097).toNat).1
         (monthOfMp (civilCore ((z + 719468) % 146097).toNat).2.1),
       monthOfMp (civilCore ((z + 719468) % 146097).toNat).2.1,
       ((civilCore ((z + 719468) % 146097).toNat).2.2 : Int)) := rfl
  rw [hproj]
  dsimp only
  rw [daysFromCivil_core ((z + 719468) / 146097) _ _ _ hyoe400 hmp12]
  omega

/-- The UTC calendar decomposition of an epoch second inverts back to the
epoch second. -/
theorem timegmUTC_toCalendarUTC (E : Int) : timegmUTC (toCalendarUTC E) = E := by
  unfold timegmUTC toCalendarUTC
  dsimp only
  have hy : (civilFromDays (E / 86400)).1 - 1900 + 1900 =
      (civilFromDays (E / 86400)).1 := by ring
  have hm : (civilFromDays (E / 86400)).2.1 - 1 + 1 =
      (civilFromDays (E / 86400)).2.1 := by ring
  rw [hy, hm, daysFromCivil_civilFromDays]
  omega

/-- C7: with the timezone variable set to the empty string (selecting UTC),
every successful `localtime` conversion of an epoch time `E` followed by
`timegm` on the resulting calendar time yields `E` again. -/
theorem c7_utc_roundtrip (env : Env) (other : Int → Option Tm) (errno E : Int)
    (tm : Tm) (htz : var_os env tzName = some [])
    (hconv : localtime (rl_localtime_r other (var_os env tzName)) errno E =
      Except.ok tm) :
    timegm rl_timegm tm = E := by
  rw [htz] at hconv
  have heng : localtime (rl_localtime_r other (some [])) errno E =
      Except.ok (toCalendarUTC E) := by
    unfold localtime rl_localtime_r
    rw [if_pos rfl]
  rw [heng] at hconv
  injection hconv with h
  subst h
  show (rl_timegm (toCalendarUTC E)).1 = E
  exact timegmUTC_toCalendarUTC E

theorem c7_witness : timegm rl_timegm (toCalendarUTC 0) = 0 :=
  c7_utc_roundtrip (fun _ => some []) (fun _ => none) 0 0 (toCalendarUTC 0)
    rfl rfl

/-- C8: with the timezone variable set to the empty string (UTC), `localtime`
at epoch 0 succeeds and yields seconds 0, minutes 0, hours 0, day-of-month 1,
month 0, year-offset 70, day-of-week 4, day-of-year 0, UTC offset 0, and a
non-positive daylight-saving flag; `timegm` applied to that calendar time
returns exactly 0. -/
theorem c8_epoch_zero (env : Env) (other : Int → Option Tm) (errno : Int)
    (htz : var_os env tzName = some []) :
    localtime (rl_localtime_r other (var_os env tzName)) errno 0 =
      Except.ok tmEpoch ∧
    tmEpoch.tm_sec = 0 ∧ tmEpoch.tm_min = 0 ∧ tmEpoch.tm_hour = 0 ∧
    tmEpoch.tm_mday = 1 ∧ tmEpoch.tm_mon = 0 ∧ tmEpoch.tm_year = 70 ∧
    tmEpoch.tm_wday = 4 ∧ tmEpoch.tm_yday = 0 ∧ tmEpoch.tm_gmtoff = 0 ∧
    tmEpoch.tm_isdst < 1 ∧
    timegm rl_timegm tmEpoch = 0 := by
  rw [htz]
  refine ⟨?_, rfl, rfl, rfl, rfl, rfl, rfl, rfl, rfl, rfl, by decide, ?_⟩
  · have h0 : toCalendarUTC 0 = tmEpoch := by decide
    unfold localtime rl_localtime_r
    rw [if_pos rfl, h0]
  · have h0 : timegmUTC tmEpoch = 0 := by decide
    show (rl_timegm tmEpoch).1 = 0
    exact h0

theorem c8_witness :
    localtime (rl_localtime_r (fun _ => none)
        (var_os (fun _ => some []) tzName)) 7 0 = Except.ok tmEpoch ∧
    timegm rl_timegm tmEpoch = 0 := by
  have h := c8_epoch_zero (fun _ => some []) (fun _ => none) 7 rfl
  exact ⟨h.1, h.2.2.2.2.2.2.2.2.2.2.2⟩
